import Mathlib

/-!
Verification of the request-coalescing memoizing cache of this repository.

Two source variants are embedded:

* `Memory` / `FibonacciCached` (the mutex-guarded memoizing cache):
  modelled by `Mem`, `memGet`, `fibonacciCachedAux` / `fibonacciCached`.
  The non-reentrant `sync.Mutex` is an explicit `locked : Bool` field;
  acquiring a held mutex from the same (single) thread can never succeed,
  which is modelled as the whole call having no result (`none`) — exactly
  the observable behaviour of a self-deadlock.  The field `fLog` is ghost
  instrumentation only: it records the lock state observed at each
  invocation of the cached function, so invocation counts and
  lock-discipline facts are stated about it; it influences nothing.

* `Service.Work` (the in-flight job deduplication service of
  `massive_operations.go`): modelled as a small-step interleaving
  semantics.  Each mutex/RWMutex-protected region of `Work` is one atomic
  step (sound here: every critical section is short, non-blocking and
  serialized by the lock; concurrent read-lock regions only read).  The
  unbuffered result channel of each waiter is modelled as a rendezvous:
  the leader's send step is enabled only when the receiving waiter is
  parked at its receive.  `invocations` is ghost instrumentation recording
  each call of `ExpensiveFibonacci`.
-/

/-- Cache lookup, modelling the Go map read `result, exists := m.cache[key]`
of the `Memory` struct: `none` when the key is absent. -/
def lookupCache : List (Int × Int) → Int → Option Int
  | [], _ => none
  | (k, v) :: rest, key => if k = key then some v else lookupCache rest key

/-- State of a `Memory` value: the `cache` map, the `mux` mutex as a
boolean (`true` = held), and the ghost log `fLog` recording, for each
invocation of the stored function `f`, whether `mux` was held at that
moment. -/
structure Mem where
  cache : List (Int × Int)
  locked : Bool
  fLog : List Bool
deriving DecidableEq

/-- Body of the source function `FibonacciCached`, abstracted over the
recursive entry point `get` standing for `m.Get`:
`if n <= 1 { return n }; return m.Get(n-1) + m.Get(n-2)` with Go's
left-to-right evaluation.  A `none` from either recursive `Get`
(deadlock or exhausted fuel) propagates. -/
def fibonacciCachedAux (get : Mem → Int → Option (Int × Mem)) (n : Int) (m : Mem) :
    Option (Int × Mem) :=
  if n ≤ 1 then some (n, m)
  else
    match get m (n - 1) with
    | none => none
    | some (a, m1) =>
      match get m1 (n - 2) with
      | none => none
      | some (b, m2) => some (a + b, m2)

/-- The source method `Memory.Get`, with fuel bounding the recursion depth
(`none` = no result within the fuel, in particular on self-deadlock):
lock `mux` (deadlock if already held), read the cache, unlock; on a hit
return the value; on a miss lock `mux` again, invoke the stored function
(`FibonacciCached`, per `main`'s `NewCache(FibonacciCached)`) — recording
in the ghost log that the mutex is held at that invocation — store the
result under the key, unlock, and return it. -/
def memGet : Nat → Mem → Int → Option (Int × Mem)
  | 0, _, _ => none
  | fuel + 1, m, key =>
    if m.locked then none
    else
      let m1 : Mem := { m with locked := true }
      match lookupCache m1.cache key with
      | some v => some (v, { m1 with locked := false })
      | none =>
        let m2 : Mem := { m1 with locked := false }
        if m2.locked then none
        else
          let m3 : Mem := { m2 with locked := true }
          let m4 : Mem := { m3 with fLog := m3.fLog ++ [m3.locked] }
          match fibonacciCachedAux (fun mm k => memGet fuel mm k) key m4 with
          | none => none
          | some (v, m5) =>
            some (v, { m5 with cache := (key, v) :: m5.cache, locked := false })

/-- The source function `FibonacciCached` itself, tied to `memGet` as its
`m.Get`. -/
def fibonacciCached (fuel : Nat) (n : Int) (m : Mem) : Option (Int × Mem) :=
  fibonacciCachedAux (fun mm k => memGet fuel mm k) n m

/-- The mathematical Fibonacci sequence on integer keys, Fib 0 = 0,
Fib 1 = 1. -/
def fibZ (n : Int) : Int := (Nat.fib n.toNat : Int)

/-- The source function `ExpensiveFibonacci` of `massive_operations.go`:
after a simulated delay it just returns its input. -/
def expensiveFibonacci (n : Int) : Int := n

/-- Program counter of one caller of `Service.Work job`, one value per
atomic region of the source:
`start` = about to run the RLock-protected in-progress check (lines 38-59);
`waiterLock` = observed in progress, about to append its channel to
`IsPending[job]` under the write lock (lines 45-51);
`waiterWait` = parked at `resp := <-response` (line 55);
`leaderMark` = observed not in progress, about to set `InProgress[job]`
under the write lock (lines 62-64);
`compute` = about to call `ExpensiveFibonacci(job)` (line 68);
`readPending` = holding the result, about to snapshot `IsPending[job]`
under the read lock (lines 71-73);
`send` = delivering the result to the snapshotted waiters in order
(lines 75-81);
`cleanup` = about to reset `InProgress[job]` and `IsPending[job]` under
the write lock (lines 84-87);
`done` = returned, carrying the result this caller obtained. -/
inductive Pc where
  | start
  | waiterLock
  | waiterWait
  | leaderMark
  | compute
  | readPending (res : Int)
  | send (res : Int) (ws : List Nat)
  | cleanup (res : Int)
  | done (res : Int)
deriving DecidableEq

/-- One goroutine executing `Service.Work job`. -/
structure Thread where
  job : Int
  pc : Pc
deriving DecidableEq

/-- Go map read with `false` default, modelling `s.InProgress[job]`. -/
def getBool : List (Int × Bool) → Int → Bool
  | [], _ => false
  | (k, v) :: rest, key => if k = key then v else getBool rest key

/-- Go map write, modelling `s.InProgress[job] = v` (newest entry first). -/
def setBool (m : List (Int × Bool)) (k : Int) (v : Bool) : List (Int × Bool) :=
  (k, v) :: m

/-- Go map read with empty default, modelling `s.IsPending[job]`; waiters
are identified by their thread index (each stands for that waiter's
one-shot channel). -/
def getWaiters : List (Int × List Nat) → Int → List Nat
  | [], _ => []
  | (k, v) :: rest, key => if k = key then v else getWaiters rest key

/-- Go map write, modelling `s.IsPending[job] = ws`. -/
def setWaiters (m : List (Int × List Nat)) (k : Int) (ws : List Nat) :
    List (Int × List Nat) :=
  (k, ws) :: m

/-- Thread lookup by index. -/
def threadAt : List Thread → Nat → Option Thread
  | [], _ => none
  | th :: _, 0 => some th
  | _ :: rest, n + 1 => threadAt rest n

/-- A configuration of the `Service` plus its client goroutines:
the two maps of the `Service` struct, the threads, and the ghost list of
`ExpensiveFibonacci` invocations (their arguments, in order). -/
structure Config where
  threads : List Thread
  inProgress : List (Int × Bool)
  isPending : List (Int × List Nat)
  invocations : List Int
deriving DecidableEq

/-- One atomic step of thread `t` in configuration `c`, following
`Service.Work` region by region; `none` when thread `t` does not exist,
is finished, or is blocked (a waiter parked at its channel receive, or a
leader whose unbuffered send has no ready receiver). -/
def workStep (c : Config) (t : Nat) : Option Config :=
  match threadAt c.threads t with
  | none => none
  | some th =>
    match th.pc with
    | Pc.start =>
      let ex := getBool c.inProgress th.job
      some { c with
        threads := c.threads.set t
          { th with pc := if ex then Pc.waiterLock else Pc.leaderMark } }
    | Pc.waiterLock =>
      some { c with
        threads := c.threads.set t { th with pc := Pc.waiterWait },
        isPending :=
          setWaiters c.isPending th.job (getWaiters c.isPending th.job ++ [t]) }
    | Pc.waiterWait => none
    | Pc.leaderMark =>
      some { c with
        threads := c.threads.set t { th with pc := Pc.compute },
        inProgress := setBool c.inProgress th.job true }
    | Pc.compute =>
      some { c with
        threads := c.threads.set t
          { th with pc := Pc.readPending (expensiveFibonacci th.job) },
        invocations := c.invocations ++ [th.job] }
    | Pc.readPending res =>
      some { c with
        threads := c.threads.set t
          { th with pc := Pc.send res (getWaiters c.isPending th.job) } }
    | Pc.send res [] =>
      some { c with threads := c.threads.set t { th with pc := Pc.cleanup res } }
    | Pc.send res (w :: rest) =>
      match threadAt c.threads w with
      | none => none
      | some wth =>
        if wth.pc = Pc.waiterWait then
          some { c with
            threads := (c.threads.set t { th with pc := Pc.send res rest }).set w
              { wth with pc := Pc.done res } }
        else none
    | Pc.cleanup res =>
      some { c with
        threads := c.threads.set t { th with pc := Pc.done res },
        inProgress := setBool c.inProgress th.job false,
        isPending := setWaiters c.isPending th.job [] }
    | Pc.done _ => none

/-- Run a schedule: at each scheduler pick, take the thread's step when it
is enabled and leave the configuration unchanged otherwise. -/
def runSched : Config → List Nat → Config
  | c, [] => c
  | c, t :: ts =>
    runSched (match workStep c t with | some c2 => c2 | none => c) ts

/-- Initial configuration for one `Work` goroutine per job, with the empty
maps produced by `NewService`. -/
def initConfig (js : List Int) : Config :=
  { threads := js.map (fun j => { job := j, pc := Pc.start }),
    inProgress := [], isPending := [], invocations := [] }

/-- The job list of `massiveOperations`. -/
def jobs : List Int := [3, 4, 5, 5, 4, 3, 2, 1, 0]

/-- Whether a thread has returned from `Work`. -/
def isDone (th : Thread) : Bool :=
  match th.pc with
  | Pc.done _ => true
  | _ => false

/-- Both callers of `Work 7` pass the read-locked in-progress check before
either acquires the write lock: both become leaders. -/
def twoLeaderSched : List Nat := [0, 1, 0, 1, 0, 1, 0, 0, 0, 1, 1, 1]

/-- The second caller of `Work 5` observes the leader in progress, then
the leader finishes, drains (nothing) and cleans up before the second
caller registers its channel. -/
def lostWakeupSched : List Nat := [0, 0, 1, 0, 0, 0, 0, 1]

/-- Final configuration of the lost-wakeup interleaving. -/
def lostWakeupFinal : Config := runSched (initConfig [5, 5]) lostWakeupSched

/-- Threads 0 and 1 both become leaders for job 7 (racy check), thread 2
registers as a waiter before either snapshots; both leaders snapshot the
same waiter; thread 0 serves it first. -/
def doubleLeaderSched : List Nat := [0, 1, 0, 1, 2, 2, 0, 0, 1, 1, 0, 0, 0]

/-- Final configuration of the double-delivery interleaving. -/
def doubleLeaderFinal : Config := runSched (initConfig [7, 7, 7]) doubleLeaderSched

/-- Strictly sequential execution: the first `Work 7` call runs to
completion, then the second runs to completion. -/
def seqTwiceSched : List Nat := [0, 0, 0, 0, 0, 0, 1, 1, 1, 1, 1, 1]

/-- A coalescing schedule for the nine goroutines of `massiveOperations`:
threads 0, 1, 2, 6, 7, 8 become leaders of jobs 3, 4, 5, 2, 1, 0 and
threads 3, 4, 5 (jobs 5, 4, 3) register as waiters while their leaders
are computing, so every duplicate job coalesces. -/
def coalesceSched : List Nat :=
  [0, 0, 1, 1, 2, 2, 3, 3, 4, 4, 5, 5, 6, 6, 7, 7, 8, 8,
   0, 0, 0, 0, 0, 1, 1, 1, 1, 1, 2, 2, 2, 2, 2,
   6, 6, 6, 6, 7, 7, 7, 7, 8, 8, 8, 8]

/-- Key fact behind the self-deadlock: `Memory.Get` on a key that is
absent from the cache and at least 2, started with the mutex free,
produces no result for any recursion fuel — the miss path invokes
`FibonacciCached` while holding the non-reentrant `mux`, and the
recursive `m.Get(n-1)` blocks on that same mutex. -/
theorem memGet_locked_recursion_stuck :
    ∀ (fuel : Nat) (m : Mem) (n : Int),
      m.locked = false → 2 ≤ n → lookupCache m.cache n = none →
      memGet fuel m n = none := by
  intro fuel m n hl hn hc
  have h1 : ¬ (n ≤ 1) := by omega
  obtain ⟨mc, ml, mg⟩ := m
  simp only at hl hc
  subst hl
  cases fuel with
  | zero => rfl
  | succ f =>
    cases f with
    | zero =>
      simp [memGet, hc, fibonacciCachedAux, h1]
    | succ g =>
      simp [memGet, hc, fibonacciCachedAux, h1]

/-- Claim C9: for every key n at least 2 that is absent from the cache,
`Memory.Get(n)` with the `FibonacciCached` function never returns — the
miss path invokes the cached function while holding the non-reentrant
mutex, and the recursive `m.Get` inside `FibonacciCached` tries to
acquire that same mutex again, so no amount of fuel yields a result. -/
theorem memGet_uncached_key_deadlocks :
    ∀ (fuel : Nat) (m : Mem) (n : Int),
      m.locked = false → 2 ≤ n → lookupCache m.cache n = none →
      memGet fuel m n = none := by
  intro fuel m n hl hn hc
  exact memGet_locked_recursion_stuck fuel m n hl hn hc

/-- Witness for C9 at fuel 10, key 2, empty cache, mutex free. -/
theorem memGet_uncached_key_deadlocks_witness :
    memGet 10 { cache := [], locked := false, fLog := [] } 2 = none :=
  memGet_uncached_key_deadlocks 10 { cache := [], locked := false, fLog := [] } 2
    rfl (by norm_num) rfl

/-- Claim C10: whenever `Memory.Get(n)` with the `FibonacciCached`
function and an initially empty cache returns a value for a key n at
least 0, that value is the n-th Fibonacci number (Fib 0 = 0, Fib 1 = 1),
and the result is stored in the cache under key n before `Get` returns.
(Only n = 0 and n = 1 actually return; larger keys deadlock, so the
guarantee holds for every returning call.) -/
theorem memGet_returns_fibonacci :
    ∀ (fuel : Nat) (n v : Int) (m2 : Mem),
      0 ≤ n →
      memGet fuel { cache := [], locked := false, fLog := [] } n = some (v, m2) →
      v = fibZ n ∧ lookupCache m2.cache n = some v := by
  intro fuel n v m2 hn h
  by_cases h2 : 2 ≤ n
  · rw [memGet_locked_recursion_stuck fuel
      { cache := [], locked := false, fLog := [] } n rfl h2 rfl] at h
    cases h
  · have hn01 : n = 0 ∨ n = 1 := by omega
    cases fuel with
    | zero => simp [memGet] at h
    | succ f =>
      rcases hn01 with h0 | h0 <;> subst h0
      · have he : memGet (f + 1) { cache := [], locked := false, fLog := [] } 0
            = some (0, { cache := [(0, 0)], locked := false, fLog := [true] }) := rfl
        rw [he] at h
        simp only [Option.some.injEq, Prod.mk.injEq] at h
        obtain ⟨h1, hm⟩ := h
        subst h1
        subst hm
        exact ⟨rfl, rfl⟩
      · have he : memGet (f + 1) { cache := [], locked := false, fLog := [] } 1
            = some (1, { cache := [(1, 1)], locked := false, fLog := [true] }) := rfl
        rw [he] at h
        simp only [Option.some.injEq, Prod.mk.injEq] at h
        obtain ⟨h1, hm⟩ := h
        subst h1
        subst hm
        exact ⟨rfl, rfl⟩

/-- Witness for C10 at fuel 1, key 1: the call returns 1 = Fib 1 and the
cache now holds the pair (1, 1). -/
theorem memGet_returns_fibonacci_witness :
    (1 : Int) = fibZ 1 ∧
      lookupCache (Mem.mk [(1, 1)] false [true]).cache 1 = some 1 :=
  memGet_returns_fibonacci 1 1 1 (Mem.mk [(1, 1)] false [true]) (by norm_num) rfl

/-- Claim C5 (refuting evaluation): `Memory.Get` does NOT keep the cache
lock free while running the computation.  On the miss for key 0 the
cached function is invoked exactly once, and the ghost log records that
`mux` was held (`true`) at that invocation — the source calls
`m.f(key, m)` between `m.mux.Lock()` and `m.mux.Unlock()`.  (In the
`Service.Work` variant the leader does compute without the lock, but the
claim asserts the discipline for both variants.) -/
theorem memGet_invokes_function_under_lock :
    memGet 1 { cache := [], locked := false, fLog := [] } 0
      = some (0, { cache := [(0, 0)], locked := false, fLog := [true] }) := rfl

/-- Claim C3, counterexample part: two strictly sequential `Work 7` calls
of the `Service` variant both run `ExpensiveFibonacci` — the service has
no result cache, so the second sequential call recomputes instead of
short-circuiting, contradicting "exactly one Computation invocation". -/
theorem work_sequential_second_call_recomputes :
    (runSched (initConfig [7, 7]) seqTwiceSched).invocations = [7, 7] ∧
      (runSched (initConfig [7, 7]) seqTwiceSched).threads.all isDone = true := by
  exact ⟨by decide, by decide⟩

/-- Claim C3 as amended: the cache short-circuit holds for the `Memory`
variant only — when the key is in the cache, `Memory.Get` returns the
stored value and leaves the state (including the ghost invocation log)
unchanged, i.e. performs zero additional invocations of the cached
function; the `Service.Work` variant stores no results, so a second
sequential `Work 7` invokes `ExpensiveFibonacci` again (two invocations
in total, not one). -/
theorem memory_cache_hit_short_circuit :
    (∀ (fuel : Nat) (m : Mem) (k v : Int),
        m.locked = false → lookupCache m.cache k = some v →
        memGet (fuel + 1) m k = some (v, m)) ∧
      (runSched (initConfig [7, 7]) seqTwiceSched).invocations = [7, 7] := by
  constructor
  · intro fuel m k v hl hc
    obtain ⟨mc, ml, mg⟩ := m
    simp only at hl hc
    subst hl
    simp [memGet, hc]
  · decide

/-- Witness for C3 as amended: a hit on the cached pair (7, 7) returns 7
and leaves the memory (cache, mutex, invocation log) unchanged. -/
theorem memory_cache_hit_short_circuit_witness :
    memGet 1 (Mem.mk [(7, 7)] false []) 7 = some (7, Mem.mk [(7, 7)] false []) :=
  memory_cache_hit_short_circuit.1 0 (Mem.mk [(7, 7)] false []) 7 7 rfl rfl

/-- Claim C1 (refuting evaluation): two concurrent callers of `Work 7`
that both pass the read-locked in-progress check before either acquires
the write lock both become leaders: the completed run performs TWO
`ExpensiveFibonacci` invocations for the single key 7, not one. -/
theorem work_double_leader_two_invocations :
    (runSched (initConfig [7, 7]) twoLeaderSched).invocations = [7, 7] ∧
      (runSched (initConfig [7, 7]) twoLeaderSched).threads
        = [Thread.mk 7 (Pc.done 7), Thread.mk 7 (Pc.done 7)] := by
  exact ⟨by decide, by decide⟩

/-- Claim C2 (refuting evaluation): in the lost-wakeup interleaving the
second caller of `Work 5` observes the job in progress, the leader then
completes, drains nothing and cleans up, and only then does the second
caller register its channel.  The resulting configuration has the second
caller parked at its channel receive and NO thread has any enabled step,
so the waiter never receives an outcome. -/
theorem work_lost_wakeup_waiter_stuck :
    threadAt lostWakeupFinal.threads 1 = some (Thread.mk 5 Pc.waiterWait) ∧
      threadAt lostWakeupFinal.threads 0 = some (Thread.mk 5 (Pc.done 5)) ∧
      ∀ t : Nat, workStep lostWakeupFinal t = none := by
  refine ⟨by decide, by decide, ?_⟩
  intro t
  match t with
  | 0 => decide
  | 1 => decide
  | n + 2 => rfl

/-- Claim C6 (refuting evaluation): the state reached by the lost-wakeup
interleaving violates the invariant — the waiter set of key 5 is the
non-empty list [1] while `InProgress[5]` is false. -/
theorem waiter_set_nonempty_while_not_in_progress :
    getWaiters lostWakeupFinal.isPending 5 = [1] ∧
      getBool lostWakeupFinal.inProgress 5 = false := by
  exact ⟨by decide, by decide⟩

/-- Claim C7 (refuting evaluation): delivery is a blocking rendezvous on
an unbuffered channel, not fire-and-forget.  After threads 0 and 1 both
become leaders for job 7 and thread 2's single registration is
snapshotted by both, thread 0 serves thread 2 first; thread 1 is then
stuck forever at its send to the already-served waiter (no step of any
thread is enabled), so a leader can block indefinitely on delivery. -/
theorem leader_send_blocks_forever :
    threadAt doubleLeaderFinal.threads 1 = some (Thread.mk 7 (Pc.send 7 [2])) ∧
      threadAt doubleLeaderFinal.threads 2 = some (Thread.mk 7 (Pc.done 7)) ∧
      ∀ t : Nat, workStep doubleLeaderFinal t = none := by
  refine ⟨by decide, by decide, ?_⟩
  intro t
  match t with
  | 0 => decide
  | 1 => decide
  | 2 => decide
  | n + 3 => rfl

/-- Claim C8, counterexample part: `massiveOperations` launches one
goroutine per element of its job list — 9 calls, not 60 — and the job
list has 6 distinct keys, not 9. -/
theorem jobs_distinct_count_is_six :
    jobs.length = 9 ∧ ¬ jobs.length = 60 ∧
      jobs.dedup.length = 6 ∧ ¬ jobs.dedup.length = 9 := by
  exact ⟨by decide, by decide, by decide, by decide⟩

/-- Claim C8 as amended: the 9 concurrent `Work` calls of
`massiveOperations` range over 6 distinct keys, and under a schedule in
which every duplicate caller observes its leader's in-progress mark the
completed run performs exactly 6 `ExpensiveFibonacci` invocations —
the number of distinct keys — rather than one per call. -/
theorem massive_operations_coalesced_run :
    jobs.length = 9 ∧ jobs.dedup.length = 6 ∧
      (runSched (initConfig jobs) coalesceSched).invocations.length = 6 ∧
      (runSched (initConfig jobs) coalesceSched).threads.all isDone = true := by
  exact ⟨by decide, by decide, by decide, by decide⟩
